import Mathlib

/-!
Shallow embedding of `email_sender.py` (class `EmailSender`) from the
Email_Sender_Real-Time repository, together with proofs about the
recipient-extraction pipeline, the validation regex, the dispatch loop and
configuration loading.

Strings are modelled as `List Char`.  Python's `str.strip` / `str.lower`
are modelled on the ASCII range (the repository only ever compares against
ASCII literals, and the validation character classes are ASCII).
-/

namespace EmailSender

/-! ### Character classes of the validation regex

The source validates with
`^[a-zA-Z0-9._%+-]+@[a-zA-Z0-9.-]+\.[a-zA-Z]{2,}$` (line 95).
-/

/-- The characters `a`-`z`. -/
def lowerChars : List Char :=
  ['a','b','c','d','e','f','g','h','i','j','k','l','m',
   'n','o','p','q','r','s','t','u','v','w','x','y','z']

/-- The characters `A`-`Z`. -/
def upperChars : List Char :=
  ['A','B','C','D','E','F','G','H','I','J','K','L','M',
   'N','O','P','Q','R','S','T','U','V','W','X','Y','Z']

/-- The characters `0`-`9`. -/
def digitChars : List Char :=
  ['0','1','2','3','4','5','6','7','8','9']

/-- The class `[a-zA-Z0-9._%+-]` (local part of the address). -/
def cls1Chars : List Char :=
  lowerChars ++ upperChars ++ digitChars ++ ['.', '_', '%', '+', '-']

/-- The class `[a-zA-Z0-9.-]` (domain body). -/
def cls2Chars : List Char :=
  lowerChars ++ upperChars ++ digitChars ++ ['.', '-']

/-- The class `[a-zA-Z]` (top-level domain). -/
def alphaChars : List Char :=
  lowerChars ++ upperChars

/-- A character class `[c₁c₂…]`, as a finite union of single characters. -/
def charClass (cs : List Char) : RegularExpression Char :=
  cs.foldr (fun c r => RegularExpression.char c + r) 0

/-- `cls+` : one or more characters of the class. -/
def plusRe (cs : List Char) : RegularExpression Char :=
  charClass cs * (charClass cs).star

/-- `[a-zA-Z]{2,}` : two or more alphabetic characters. -/
def alphaTwo : RegularExpression Char :=
  charClass alphaChars * (charClass alphaChars * (charClass alphaChars).star)

/-- The full anchored pattern of `is_valid_email`
(`re.match` with `^…$` on the whole string is a full match). -/
def emailRegex : RegularExpression Char :=
  plusRe cls1Chars *
    (RegularExpression.char '@' *
      (plusRe cls2Chars * (RegularExpression.char '.' * alphaTwo)))

/-! ### Python string primitives used by the source -/

/-- ASCII whitespace recognised by Python's `str.strip()`. -/
def pyIsSpace (c : Char) : Bool :=
  c = ' ' || c = '\t' || c = '\n' || c = '\r' || c = '\x0b' || c = '\x0c'

/-- Drop the maximal run of `p`-characters from the end of `l`. -/
def dropTrailing (p : Char → Bool) (l : List Char) : List Char :=
  (l.reverse.dropWhile p).reverse

/-- Python `line.strip()`: remove leading and trailing whitespace. -/
def pyStrip (l : List Char) : List Char :=
  dropTrailing pyIsSpace (l.dropWhile pyIsSpace)

/-- A quote character, as in Python `strip('"\'')`. -/
def isQuote (c : Char) : Bool :=
  c = '"' || c = '\''

/-- Python `possible_email.strip('"\'')` (line 131): remove ALL leading and
trailing quote characters. -/
def stripQuotes (l : List Char) : List Char :=
  dropTrailing isQuote (l.dropWhile isQuote)

/-- Python `line.lower()` on the ASCII range. -/
def pyLower (l : List Char) : List Char :=
  l.map Char.toLower

/-- `['email', 'emails', 'mail', 'e-mail']` (line 117). -/
def headerTokens : List (List Char) :=
  ["email".data, "emails".data, "mail".data, "e-mail".data]

/-- `line.lower() in ['email', 'emails', 'mail', 'e-mail']`. -/
def isHeader (line : List Char) : Bool :=
  headerTokens.contains (pyLower line)

/-- `is_valid_email` (lines 93-96): strip the argument, then match the
anchored regex. -/
def is_valid_email (s : List Char) : Bool :=
  emailRegex.rmatch (pyStrip s)

/-- The separators checked at line 125, in priority order. -/
def separators : List Char := [',', ';', '\t', '|']

/-- Lines 122-128: if one of the separators occurs in the (stripped) line,
the candidate is the part before its first occurrence, re-stripped;
otherwise the whole line. -/
def candidateOf (line : List Char) : List Char :=
  match separators.find? (fun sep => line.contains sep) with
  | some sep => pyStrip (line.takeWhile (fun c => c ≠ sep))
  | none => line

/-- Lines 110-131 up to validation: the candidate extracted from a raw line,
or `none` when the line is skipped (empty after stripping, or a header). -/
def lineCandidate (rawLine : List Char) : Option (List Char) :=
  let line := pyStrip rawLine
  if line = [] then none
  else if isHeader line then none
  else some (stripQuotes (candidateOf line))

/-! ### The sender state (`__init__`, lines 17-24) -/

/-- The `self.stats` dictionary. -/
structure Stats where
  total : Nat
  sent : Nat
  failed : Nat
  invalid : Nat
  duplicates : Nat
deriving Repr, DecidableEq

/-- Counters as zeroed in `__init__`. -/
def initStats : Stats := ⟨0, 0, 0, 0, 0⟩

/-- The mutable fields of an `EmailSender` instance used by extraction:
`self.processed_emails` (a set, modelled as the list of inserted elements)
and `self.stats`. -/
structure SenderState where
  processed_emails : List (List Char)
  stats : Stats
deriving Repr, DecidableEq

/-- The state right after `__init__`. -/
def initState : SenderState := ⟨[], initStats⟩

/-- The body of the `for line in lines` loop of `read_emails_from_csv`
(lines 109-150), acting on `(state, emails-accumulated-so-far)`. -/
def stepLine (acc : SenderState × List (List Char)) (rawLine : List Char) :
    SenderState × List (List Char) :=
  let st := acc.1
  let emails := acc.2
  let line := pyStrip rawLine
  if line = [] then acc
  else if isHeader line then acc
  else
    let possible_email := stripQuotes (candidateOf line)
    if ¬ is_valid_email possible_email then
      ({ st with stats := { st.stats with invalid := st.stats.invalid + 1 } }, emails)
    else if possible_email ∈ st.processed_emails then
      ({ st with stats := { st.stats with duplicates := st.stats.duplicates + 1 } }, emails)
    else
      ({ st with processed_emails := possible_email :: st.processed_emails },
       emails ++ [possible_email])

/-- `read_emails_from_csv` (lines 98-160) on a file whose content is the
given list of raw lines: fold the loop body over the lines, starting from
the caller's state and a fresh empty `emails` accumulator.  Returns the
updated state and the list of valid unique addresses. -/
def read_emails_from_csv (st : SenderState) (lines : List (List Char)) :
    SenderState × List (List Char) :=
  lines.foldl stepLine (st, [])

/-! ### The validation pattern, as worded by the specification

`specEmailForm` follows the spec's words for the pattern ("one or more
characters from `[A-Za-z0-9._%+-]`, then `@`, then one or more characters
from `[A-Za-z0-9.-]`, then a literal `.`, then two or more alphabetic
characters, anchored at both ends"), to be compared with the source's
regex matcher. -/
def specEmailForm (s : List Char) : Prop :=
  ∃ a b d : List Char,
    s = a ++ '@' :: (b ++ '.' :: d) ∧
    a ≠ [] ∧ (∀ c ∈ a, c ∈ cls1Chars) ∧
    b ≠ [] ∧ (∀ c ∈ b, c ∈ cls2Chars) ∧
    2 ≤ d.length ∧ (∀ c ∈ d, c ∈ alphaChars)

theorem mem_charClass_iff (cs : List Char) (x : List Char) :
    x ∈ (charClass cs).matches' ↔ ∃ c ∈ cs, x = [c] := by
  induction cs with
  | nil =>
    simp only [charClass, List.foldr_nil, RegularExpression.matches'_zero,
      List.not_mem_nil, false_and, exists_false, iff_false]
    exact Language.not_mem_zero x
  | cons c cs ih =>
    show x ∈ (RegularExpression.char c + charClass cs).matches' ↔ _
    rw [RegularExpression.matches'_add, Language.mem_add,
      RegularExpression.matches'_char, Set.mem_singleton_iff, ih]
    constructor
    · rintro (rfl | ⟨c', hc', rfl⟩)
      · exact ⟨c, by simp, rfl⟩
      · exact ⟨c', by simp [hc'], rfl⟩
    · rintro ⟨c', hc', rfl⟩
      rcases List.mem_cons.mp hc' with rfl | h
      · exact Or.inl rfl
      · exact Or.inr ⟨c', h, rfl⟩

theorem flatten_map_singleton (x : List Char) :
    (x.map (fun c => [c])).flatten = x := by
  induction x with
  | nil => rfl
  | cons c x ih => simp [ih]

theorem mem_charClass_star_iff (cs : List Char) (x : List Char) :
    x ∈ ((charClass cs).star).matches' ↔ ∀ c ∈ x, c ∈ cs := by
  rw [RegularExpression.matches'_star, Language.mem_kstar]
  constructor
  · rintro ⟨L, rfl, hL⟩ c hc
    rw [List.mem_flatten] at hc
    obtain ⟨y, hyL, hcy⟩ := hc
    obtain ⟨c', hc', rfl⟩ := (mem_charClass_iff cs y).1 (hL y hyL)
    rw [List.mem_singleton] at hcy
    exact hcy ▸ hc'
  · intro h
    refine ⟨x.map (fun c => [c]), (flatten_map_singleton x).symm, ?_⟩
    intro y hy
    rw [List.mem_map] at hy
    obtain ⟨c, hc, rfl⟩ := hy
    exact (mem_charClass_iff cs [c]).2 ⟨c, h c hc, rfl⟩

theorem mem_plusRe_iff (cs : List Char) (x : List Char) :
    x ∈ (plusRe cs).matches' ↔ x ≠ [] ∧ ∀ c ∈ x, c ∈ cs := by
  rw [plusRe, RegularExpression.matches'_mul, Language.mem_mul]
  constructor
  · rintro ⟨a, ha, b, hb, rfl⟩
    obtain ⟨c, hc, rfl⟩ := (mem_charClass_iff cs a).1 ha
    have hb' := (mem_charClass_star_iff cs b).1 hb
    refine ⟨by simp, ?_⟩
    intro d hd
    rcases List.mem_cons.mp hd with rfl | h
    · exact hc
    · exact hb' d h
  · rintro ⟨hne, hall⟩
    cases x with
    | nil => exact absurd rfl hne
    | cons c x =>
      refine ⟨[c], (mem_charClass_iff cs [c]).2 ⟨c, hall c (by simp), rfl⟩,
        x, (mem_charClass_star_iff cs x).2 (fun d hd => hall d (by simp [hd])), rfl⟩

theorem mem_alphaTwo_iff (x : List Char) :
    x ∈ alphaTwo.matches' ↔ 2 ≤ x.length ∧ ∀ c ∈ x, c ∈ alphaChars := by
  rw [alphaTwo, RegularExpression.matches'_mul, Language.mem_mul]
  constructor
  · rintro ⟨a, ha, b, hb, rfl⟩
    obtain ⟨c1, hc1, rfl⟩ := (mem_charClass_iff _ a).1 ha
    rw [RegularExpression.matches'_mul, Language.mem_mul] at hb
    obtain ⟨a2, ha2, b2, hb2, rfl⟩ := hb
    obtain ⟨c2, hc2, rfl⟩ := (mem_charClass_iff _ a2).1 ha2
    have hb2' := (mem_charClass_star_iff _ b2).1 hb2
    constructor
    · simp
    · intro c hc
      simp only [List.cons_append, List.nil_append, List.mem_cons] at hc
      rcases hc with rfl | rfl | h
      · exact hc1
      · exact hc2
      · exact hb2' c h
  · rintro ⟨hlen, hall⟩
    match x with
    | c1 :: c2 :: rest =>
      refine ⟨[c1], (mem_charClass_iff _ [c1]).2 ⟨c1, hall c1 (by simp), rfl⟩,
        c2 :: rest, ?_, rfl⟩
      rw [RegularExpression.matches'_mul]
      have h2 : [c2] ∈ (charClass alphaChars).matches' :=
        (mem_charClass_iff _ [c2]).2 ⟨c2, hall c2 (by simp), rfl⟩
      have h3 : rest ∈ ((charClass alphaChars).star).matches' :=
        (mem_charClass_star_iff _ rest).2 (fun d hd => hall d (by simp [hd]))
      exact Language.append_mem_mul h2 h3

/-- The regex matcher agrees with the spec's wording of the pattern. -/
theorem rmatch_emailRegex_iff (s : List Char) :
    emailRegex.rmatch s = true ↔ specEmailForm s := by
  rw [show (emailRegex.rmatch s = true) ↔ s ∈ emailRegex.matches' from
    RegularExpression.rmatch_iff_matches' emailRegex s]
  rw [emailRegex, RegularExpression.matches'_mul, Language.mem_mul]
  constructor
  · rintro ⟨a, ha, rest, hrest, rfl⟩
    have ha' := (mem_plusRe_iff _ a).1 ha
    rw [RegularExpression.matches'_mul, Language.mem_mul] at hrest
    obtain ⟨atp, hat, rest2, hrest2, rfl⟩ := hrest
    rw [RegularExpression.matches'_char, Set.mem_singleton_iff] at hat
    subst hat
    rw [RegularExpression.matches'_mul, Language.mem_mul] at hrest2
    obtain ⟨b, hb, rest3, hrest3, rfl⟩ := hrest2
    have hb' := (mem_plusRe_iff _ b).1 hb
    rw [RegularExpression.matches'_mul, Language.mem_mul] at hrest3
    obtain ⟨dot, hdot, d, hd, rfl⟩ := hrest3
    rw [RegularExpression.matches'_char, Set.mem_singleton_iff] at hdot
    subst hdot
    have hd' := (mem_alphaTwo_iff d).1 hd
    exact ⟨a, b, d, by simp, ha'.1, ha'.2, hb'.1, hb'.2, hd'.1, hd'.2⟩
  · rintro ⟨a, b, d, rfl, hane, ha, hbne, hb, hdlen, hd⟩
    have h1 : a ∈ (plusRe cls1Chars).matches' := (mem_plusRe_iff _ a).2 ⟨hane, ha⟩
    have h2 : ['@'] ∈ (RegularExpression.char '@').matches' := by
      rw [RegularExpression.matches'_char]; rfl
    have h3 : b ∈ (plusRe cls2Chars).matches' := (mem_plusRe_iff _ b).2 ⟨hbne, hb⟩
    have h4 : ['.'] ∈ (RegularExpression.char '.').matches' := by
      rw [RegularExpression.matches'_char]; rfl
    have h5 : d ∈ alphaTwo.matches' := (mem_alphaTwo_iff d).2 ⟨hdlen, hd⟩
    have h45 := Language.append_mem_mul h4 h5
    rw [← RegularExpression.matches'_mul] at h45
    have h345 := Language.append_mem_mul h3 h45
    rw [← RegularExpression.matches'_mul] at h345
    have h2345 := Language.append_mem_mul h2 h345
    rw [← RegularExpression.matches'_mul] at h2345
    refine ⟨a, h1, '@' :: (b ++ '.' :: d), ?_, rfl⟩
    simpa using h2345

/-- A string of the spec's pattern form starts with a class-1 character. -/
theorem specEmailForm_head {s : List Char} (h : specEmailForm s) :
    ∃ c t, s = c :: t ∧ c ∈ cls1Chars := by
  obtain ⟨a, b, d, rfl, hane, ha, _⟩ := h
  cases a with
  | nil => exact absurd rfl hane
  | cons c t => exact ⟨c, t ++ '@' :: (b ++ '.' :: d), by simp, ha c (by simp)⟩

/-- `is_valid_email` accepts exactly the strings whose whitespace-stripped
form has the spec's pattern shape. -/
theorem is_valid_email_iff (s : List Char) :
    is_valid_email s = true ↔ specEmailForm (pyStrip s) := by
  rw [is_valid_email]
  exact rmatch_emailRegex_iff (pyStrip s)

/-! ### Characterisation of the extraction loop -/

/-- The loop body, rephrased over the extracted candidate. -/
def stepCand (acc : SenderState × List (List Char)) :
    Option (List Char) → SenderState × List (List Char)
  | none => acc
  | some c =>
    if ¬ is_valid_email c then
      ({ acc.1 with stats := { acc.1.stats with invalid := acc.1.stats.invalid + 1 } }, acc.2)
    else if c ∈ acc.1.processed_emails then
      ({ acc.1 with stats := { acc.1.stats with duplicates := acc.1.stats.duplicates + 1 } },
       acc.2)
    else
      ({ acc.1 with processed_emails := c :: acc.1.processed_emails }, acc.2 ++ [c])

theorem stepLine_eq_stepCand (acc : SenderState × List (List Char)) (rawLine : List Char) :
    stepLine acc rawLine = stepCand acc (lineCandidate rawLine) := by
  rw [stepLine, lineCandidate]
  by_cases h1 : pyStrip rawLine = []
  · simp [h1, stepCand]
  · by_cases h2 : isHeader (pyStrip rawLine)
    · simp [h1, h2, stepCand]
    · simp [h1, h2, stepCand]

/-- The candidates of the non-skipped lines that pass validation, in input
order (with repetitions). -/
def validCandidates (lines : List (List Char)) : List (List Char) :=
  (lines.filterMap lineCandidate).filter (fun c => is_valid_email c)

/-- The number of non-skipped lines whose candidate fails validation. -/
def invalidCount (lines : List (List Char)) : Nat :=
  ((lines.filterMap lineCandidate).filter (fun c => !(is_valid_email c))).length

/-- First-seen deduplication relative to an already-seen set. -/
def dedupGo (seen : List (List Char)) : List (List Char) → List (List Char)
  | [] => []
  | x :: xs => if x ∈ seen then dedupGo seen xs else x :: dedupGo (x :: seen) xs

/-- First-seen deduplication, as the spec words it: keep the first
occurrence of each string, drop later repeats. -/
def dedupFirstSeen (l : List (List Char)) : List (List Char) :=
  dedupGo [] l

/-- The number of candidates hitting the seen-set (classified Duplicate). -/
def dupCount (seen : List (List Char)) : List (List Char) → Nat
  | [] => 0
  | x :: xs => if x ∈ seen then dupCount seen xs + 1 else dupCount (x :: seen) xs

theorem validCandidates_cons_skip {l : List Char} (ls : List (List Char))
    (hc : lineCandidate l = none) : validCandidates (l :: ls) = validCandidates ls := by
  simp [validCandidates, List.filterMap_cons, hc]

theorem invalidCount_cons_skip {l : List Char} (ls : List (List Char))
    (hc : lineCandidate l = none) : invalidCount (l :: ls) = invalidCount ls := by
  simp [invalidCount, List.filterMap_cons, hc]

theorem validCandidates_cons_valid {l c : List Char} (ls : List (List Char))
    (hc : lineCandidate l = some c) (hv : is_valid_email c = true) :
    validCandidates (l :: ls) = c :: validCandidates ls := by
  simp [validCandidates, List.filterMap_cons, hc, List.filter_cons, hv]

theorem invalidCount_cons_valid {l c : List Char} (ls : List (List Char))
    (hc : lineCandidate l = some c) (hv : is_valid_email c = true) :
    invalidCount (l :: ls) = invalidCount ls := by
  simp [invalidCount, List.filterMap_cons, hc, List.filter_cons, hv]

theorem validCandidates_cons_invalid {l c : List Char} (ls : List (List Char))
    (hc : lineCandidate l = some c) (hv : is_valid_email c = false) :
    validCandidates (l :: ls) = validCandidates ls := by
  simp [validCandidates, List.filterMap_cons, hc, List.filter_cons, hv]

theorem invalidCount_cons_invalid {l c : List Char} (ls : List (List Char))
    (hc : lineCandidate l = some c) (hv : is_valid_email c = false) :
    invalidCount (l :: ls) = invalidCount ls + 1 := by
  simp [invalidCount, List.filterMap_cons, hc, List.filter_cons, hv]

/-- Full characterisation of the extraction loop: final counters, final
deduplication set, and the returned address list. -/
theorem foldl_stepLine_eq (lines : List (List Char)) :
    ∀ (st : SenderState) (emails : List (List Char)),
      lines.foldl stepLine (st, emails) =
        ({ processed_emails :=
             (dedupGo st.processed_emails (validCandidates lines)).reverse ++
               st.processed_emails,
           stats :=
             { st.stats with
               invalid := st.stats.invalid + invalidCount lines,
               duplicates :=
                 st.stats.duplicates + dupCount st.processed_emails (validCandidates lines) } },
         emails ++ dedupGo st.processed_emails (validCandidates lines)) := by
  induction lines with
  | nil =>
    rintro ⟨p, t, s, f, i, d⟩ emails
    simp [validCandidates, invalidCount, dedupGo, dupCount]
  | cons l ls ih =>
    rintro ⟨p, t, s, f, i, d⟩ emails
    rw [List.foldl_cons, stepLine_eq_stepCand]
    cases hc : lineCandidate l with
    | none =>
      rw [stepCand, ih, validCandidates_cons_skip ls hc, invalidCount_cons_skip ls hc]
    | some c =>
      by_cases hv : is_valid_email c = true
      · rw [validCandidates_cons_valid ls hc hv, invalidCount_cons_valid ls hc hv]
        by_cases hd : c ∈ p
        · rw [stepCand]
          simp only [hv, not_true_eq_false, if_false]
          rw [if_pos hd, ih]
          show _ = (_, _ ++ dedupGo p (c :: validCandidates ls))
          rw [dedupGo, if_pos hd, dupCount, if_pos hd]
          refine Prod.ext ?_ rfl
          simp only [SenderState.mk.injEq, Stats.mk.injEq]
          and_intros <;> first | trivial | omega
        · rw [stepCand]
          simp only [hv, not_true_eq_false, if_false]
          rw [if_neg hd, ih]
          show _ = (_, _ ++ dedupGo p (c :: validCandidates ls))
          rw [dedupGo, if_neg hd, dupCount, if_neg hd]
          refine Prod.ext ?_ (by simp)
          simp only [SenderState.mk.injEq, Stats.mk.injEq]
          and_intros <;> first | trivial | omega | simp
      · have hv' : is_valid_email c = false := eq_false_of_ne_true hv
        rw [validCandidates_cons_invalid ls hc hv', invalidCount_cons_invalid ls hc hv']
        rw [stepCand, if_pos hv, ih]
        refine Prod.ext ?_ rfl
        simp only [SenderState.mk.injEq, Stats.mk.injEq]
        and_intros <;> first | trivial | omega

theorem dedupGo_sub (l : List (List Char)) :
    ∀ (seen : List (List Char)) (x : List Char), x ∈ dedupGo seen l → x ∈ l := by
  induction l with
  | nil => intro seen x h; exact absurd h (by simp [dedupGo])
  | cons a as ih =>
    intro seen x h
    rw [dedupGo] at h
    split at h
    · exact List.mem_cons_of_mem a (ih seen x h)
    · rcases List.mem_cons.mp h with rfl | h
      · exact List.mem_cons_self x as
      · exact List.mem_cons_of_mem a (ih (a :: seen) x h)

theorem dedupGo_not_seen (l : List (List Char)) :
    ∀ (seen : List (List Char)) (x : List Char), x ∈ dedupGo seen l → x ∉ seen := by
  induction l with
  | nil => intro seen x h; exact absurd h (by simp [dedupGo])
  | cons a as ih =>
    intro seen x h
    rw [dedupGo] at h
    split at h
    · exact ih seen x h
    · rcases List.mem_cons.mp h with rfl | h
      · assumption
      · intro hx
        exact ih (a :: seen) x h (List.mem_cons_of_mem a hx)

theorem dedupGo_nodup (l : List (List Char)) :
    ∀ seen : List (List Char), (dedupGo seen l).Nodup := by
  induction l with
  | nil => intro seen; simp [dedupGo]
  | cons a as ih =>
    intro seen
    rw [dedupGo]
    split
    · exact ih seen
    · refine List.Nodup.cons ?_ (ih (a :: seen))
      intro ha
      exact dedupGo_not_seen as (a :: seen) a ha (List.mem_cons_self a seen)

theorem mem_seen_or_dedupGo (l : List (List Char)) :
    ∀ (seen : List (List Char)) (c : List Char), c ∈ l →
      c ∈ seen ∨ c ∈ dedupGo seen l := by
  induction l with
  | nil => intro seen c h; exact absurd h (List.not_mem_nil c)
  | cons a as ih =>
    intro seen c h
    rw [dedupGo]
    rcases List.mem_cons.mp h with rfl | h
    · split
      · exact Or.inl (by assumption)
      · exact Or.inr (List.mem_cons_self c _)
    · split
      · exact ih seen c h
      · rcases ih (a :: seen) c h with hs | hd
        · rcases List.mem_cons.mp hs with rfl | hs
          · exact Or.inr (List.mem_cons_self c _)
          · exact Or.inl hs
        · exact Or.inr (List.mem_cons_of_mem a hd)

theorem dedupGo_eq_nil (l : List (List Char)) (seen : List (List Char))
    (h : ∀ c ∈ l, c ∈ seen) : dedupGo seen l = [] := by
  induction l with
  | nil => rfl
  | cons a as ih =>
    rw [dedupGo, if_pos (h a (List.mem_cons_self a as))]
    exact ih (fun c hc => h c (List.mem_cons_of_mem a hc))

theorem dupCount_eq_length (l : List (List Char)) (seen : List (List Char))
    (h : ∀ c ∈ l, c ∈ seen) : dupCount seen l = l.length := by
  induction l with
  | nil => rfl
  | cons a as ih =>
    rw [dupCount, if_pos (h a (List.mem_cons_self a as))]
    rw [ih (fun c hc => h c (List.mem_cons_of_mem a hc))]
    rfl

theorem dupCount_add_dedupGo_length (l : List (List Char)) :
    ∀ seen : List (List Char), dupCount seen l + (dedupGo seen l).length = l.length := by
  induction l with
  | nil => intro seen; rfl
  | cons a as ih =>
    intro seen
    rw [dupCount, dedupGo]
    split
    · rw [List.length_cons, ← ih seen]; omega
    · rw [List.length_cons, List.length_cons, ← ih (a :: seen)]; omega

/-! ### Dispatch (`send_single_email` lines 175-213, `send_emails_from_csv`
lines 215-249)

One transport interaction is abstracted by where in `send_single_email`'s
try-structure an exception (if any) is raised:
* `success`: message build, connect, starttls, login and sendmail all
  succeed;
* `outerRaise msg`: `create_email_message`, the `smtplib.SMTP` constructor
  (which performs connection establishment) or `starttls` raises an
  exception with text `msg` - caught by the OUTER handler at line 210;
* `authRaise`: the inner block (login/sendmail) raises
  `SMTPAuthenticationError` - line 197;
* `connectRaise`: the inner block raises `SMTPConnectError` - line 201
  (note `smtplib` raises `SMTPConnectError` only while connecting, which
  happens in the constructor, outside the inner block);
* `smtpRaise msg`: the inner block raises any other exception - line 205.
-/

inductive SmtpEvent where
  | success
  | outerRaise (msg : String)
  | authRaise
  | connectRaise
  | smtpRaise (msg : String)
deriving Repr, DecidableEq

/-- One `log_email_status` record: recipient, status, error message. -/
structure StatusEntry where
  email : List Char
  status : String
  errorMsg : String
deriving Repr, DecidableEq

/-- `send_single_email`: updates the counters, returns the boolean result
and the status entry logged for the recipient. -/
def send_single_email (st : Stats) (recipient : List Char) (ev : SmtpEvent) :
    Stats × Bool × StatusEntry :=
  match ev with
  | .success =>
    ({ st with sent := st.sent + 1 }, true, ⟨recipient, "SENT", ""⟩)
  | .outerRaise m =>
    ({ st with failed := st.failed + 1 }, false, ⟨recipient, "FAILED", m⟩)
  | .authRaise =>
    ({ st with failed := st.failed + 1 }, false,
     ⟨recipient, "FAILED", "Authentication Failed - Check credentials"⟩)
  | .connectRaise =>
    ({ st with failed := st.failed + 1 }, false, ⟨recipient, "FAILED", "Connection Error"⟩)
  | .smtpRaise m =>
    ({ st with failed := st.failed + 1 }, false, ⟨recipient, "FAILED", "SMTP Error: " ++ m⟩)

/-- Whether the event counts as a successful send. -/
def eventSent : SmtpEvent → Bool
  | .success => true
  | _ => false

/-- The status entry logged for a recipient under a given event. -/
def statusEntryFor (recipient : List Char) : SmtpEvent → StatusEntry
  | .success => ⟨recipient, "SENT", ""⟩
  | .outerRaise m => ⟨recipient, "FAILED", m⟩
  | .authRaise => ⟨recipient, "FAILED", "Authentication Failed - Check credentials"⟩
  | .connectRaise => ⟨recipient, "FAILED", "Connection Error"⟩
  | .smtpRaise m => ⟨recipient, "FAILED", "SMTP Error: " ++ m⟩

/-- The `for i, email in enumerate(emails, 1)` loop of
`send_emails_from_csv` (lines 232-241): send to each recipient in order,
sleeping `delaySeconds` after every recipient except the last.  Returns the
final counters, the status entries and the list of performed delays. -/
def dispatchLoop (transport : List Char → SmtpEvent) (delaySeconds : Nat) (st : Stats) :
    List (List Char) → Stats × List StatusEntry × List Nat
  | [] => (st, [], [])
  | [e] =>
    let r := send_single_email st e (transport e)
    (r.1, [r.2.2], [])
  | e :: e2 :: rest =>
    let r := send_single_email st e (transport e)
    let out := dispatchLoop transport delaySeconds r.1 (e2 :: rest)
    (out.1, r.2.2 :: out.2.1, delaySeconds :: out.2.2)

/-- `send_emails_from_csv` (lines 215-249): extract the recipients, set
`stats['total']` to their number, return early if there are none, else run
the dispatch loop. -/
def send_emails_from_csv (transport : List Char → SmtpEvent) (delaySeconds : Nat)
    (st : SenderState) (lines : List (List Char)) :
    SenderState × List StatusEntry × List Nat :=
  let r := read_emails_from_csv st lines
  let st1 := r.1
  let emails := r.2
  let st2 : SenderState := { st1 with stats := { st1.stats with total := emails.length } }
  if emails = [] then (st2, [], [])
  else
    let dl := dispatchLoop transport delaySeconds st2.stats emails
    ({ st2 with stats := dl.1 }, dl.2.1, dl.2.2)

theorem send_single_email_eq (st : Stats) (e : List Char) (ev : SmtpEvent) :
    send_single_email st e ev =
      ({ st with sent := st.sent + (if eventSent ev then 1 else 0),
                 failed := st.failed + (if eventSent ev then 0 else 1) },
       eventSent ev, statusEntryFor e ev) := by
  cases st
  cases ev <;> simp [send_single_email, eventSent, statusEntryFor]

/-- Full characterisation of the dispatch loop. -/
theorem dispatchLoop_eq (transport : List Char → SmtpEvent) (delaySeconds : Nat)
    (es : List (List Char)) : ∀ st : Stats,
    dispatchLoop transport delaySeconds st es =
      ({ st with sent := st.sent + es.countP (fun e => eventSent (transport e)),
                 failed := st.failed + es.countP (fun e => !(eventSent (transport e))) },
       es.map (fun e => statusEntryFor e (transport e)),
       List.replicate (es.length - 1) delaySeconds) := by
  induction es with
  | nil =>
    rintro ⟨t, s, f, i, d⟩
    simp [dispatchLoop]
  | cons e rest ih =>
    rintro ⟨t, s, f, i, d⟩
    cases rest with
    | nil =>
      rw [dispatchLoop, send_single_email_eq]
      cases hev : eventSent (transport e) <;>
        simp [hev, List.countP_cons, List.countP_nil]
    | cons e2 rest' =>
      rw [dispatchLoop, send_single_email_eq, ih]
      refine Prod.ext ?_ (Prod.ext ?_ ?_)
      · simp only [Stats.mk.injEq]
        cases hev : eventSent (transport e) <;>
          simp [hev, List.countP_cons] <;> omega
      · simp
      · show delaySeconds :: List.replicate ((e2 :: rest').length - 1) delaySeconds =
          List.replicate ((e :: e2 :: rest').length - 1) delaySeconds
        simp [List.replicate_succ]

/-! ### Configuration loading (`load_config`, lines 66-91) -/

inductive JsonVal where
  | str (s : String)
  | num (n : Int)
deriving Repr, DecidableEq

/-- A parsed JSON object: its ordered key-value pairs. -/
abbrev JsonObj := List (String × JsonVal)

/-- The keys the rest of the program reads from the configuration. -/
def requiredConfigKeys : List String :=
  ["smtp_host", "smtp_port", "username", "password", "sender_name", "subject",
   "body", "delay_seconds"]

/-- Whether the object binds the key. -/
def hasKey (j : JsonObj) (k : String) : Bool :=
  (j.lookup k).isSome

/-- `os.getenv(name, default)`. -/
def getenvD (env : String → Option String) (k d : String) : String :=
  (env k).getD d

/-- Python `int(s)` on decimal literals; raises `ValueError` otherwise. -/
def pyInt (s : String) : Except String Int :=
  match s.toInt? with
  | some n => Except.ok n
  | none => Except.error ("invalid literal for int() with base 10: " ++ s)

/-- Lines 77-86: the environment-variable fallback configuration (the two
`int(...)` conversions may raise; the dict fields are listed in source
order). -/
def envConfig (env : String → Option String) : Except String JsonObj := do
  let port ← pyInt (getenvD env "SMTP_PORT" "587")
  let delay ← pyInt (getenvD env "EMAIL_DELAY" "90")
  Except.ok
    [("smtp_host", JsonVal.str (getenvD env "SMTP_HOST" "smtp.gmail.com")),
     ("smtp_port", JsonVal.num port),
     ("username", JsonVal.str (getenvD env "SMTP_USERNAME" "dummy@gmail.com")),
     ("password", JsonVal.str (getenvD env "SMTP_PASSWORD" "dummy_password")),
     ("sender_name", JsonVal.str (getenvD env "SENDER_NAME" "Automated Mailer")),
     ("subject", JsonVal.str (getenvD env "EMAIL_SUBJECT" "Your Subject Here")),
     ("body", JsonVal.str (getenvD env "EMAIL_BODY" "Hello, this is an automated message.")),
     ("delay_seconds", JsonVal.num delay)]

/-- `load_config` (lines 66-91).  `configFile` is `none` when no file
exists at the configured path, `some (Except.error e)` when the file
exists but `json.load` raises, and `some (Except.ok j)` when it parses to
the object `j`.  When the file parses, the object is returned as-is: the
source performs no key validation. -/
def load_config (configFile : Option (Except String JsonObj))
    (env : String → Option String) : Except String JsonObj :=
  match configFile with
  | some parsed => parsed
  | none => envConfig env

/-! ### Properties of end-stripping -/

theorem head?_dropWhile (p : Char → Bool) (l : List Char) :
    ∀ a, (l.dropWhile p).head? = some a → p a = false := by
  induction l with
  | nil => intro a h; exact absurd h (by simp)
  | cons x xs ih =>
    intro a h
    rw [List.dropWhile_cons] at h
    split at h
    · exact ih a h
    · rename_i hx
      simp only [List.head?_cons, Option.some.injEq] at h
      subst h
      exact eq_false_of_ne_true hx

theorem dropTrailing_append (p : Char → Bool) (l : List Char) :
    dropTrailing p l ++ (l.reverse.takeWhile p).reverse = l := by
  rw [dropTrailing, ← List.reverse_append, List.takeWhile_append_dropWhile,
    List.reverse_reverse]

theorem reverse_dropTrailing (p : Char → Bool) (l : List Char) :
    (dropTrailing p l).reverse = l.reverse.dropWhile p := by
  rw [dropTrailing, List.reverse_reverse]

theorem stripQuotes_decomp (c : List Char) :
    ∃ pre suf, pre ++ stripQuotes c ++ suf = c ∧
      (∀ x ∈ pre, isQuote x = true) ∧ (∀ x ∈ suf, isQuote x = true) := by
  refine ⟨c.takeWhile isQuote, ((c.dropWhile isQuote).reverse.takeWhile isQuote).reverse,
    ?_, ?_, ?_⟩
  · rw [stripQuotes, List.append_assoc, dropTrailing_append,
      List.takeWhile_append_dropWhile]
  · intro x hx
    exact List.mem_takeWhile_imp hx
  · intro x hx
    rw [List.mem_reverse] at hx
    exact List.mem_takeWhile_imp hx

theorem stripQuotes_head (c : List Char) :
    ∀ a, (stripQuotes c).head? = some a → isQuote a = false := by
  intro a h
  apply head?_dropWhile isQuote c a
  have hsuf := dropTrailing_append isQuote (c.dropWhile isQuote)
  cases hl : stripQuotes c with
  | nil => rw [hl] at h; exact absurd h (by simp)
  | cons y ys =>
    rw [hl] at h
    simp only [List.head?_cons, Option.some.injEq] at h
    subst h
    rw [stripQuotes] at hl
    rw [hl] at hsuf
    rw [← hsuf]
    simp

theorem stripQuotes_reverse_head (c : List Char) :
    ∀ a, ((stripQuotes c).reverse).head? = some a → isQuote a = false := by
  intro a h
  rw [stripQuotes, reverse_dropTrailing] at h
  exact head?_dropWhile isQuote _ a h

theorem dropWhile_eq_self_of_head (p : Char → Bool) (l : List Char)
    (h : ∀ a, l.head? = some a → p a = false) : l.dropWhile p = l := by
  cases l with
  | nil => rfl
  | cons x xs =>
    rw [List.dropWhile_cons, if_neg]
    rw [h x rfl]
    simp

theorem stripQuotes_idem (c : List Char) :
    stripQuotes (stripQuotes c) = stripQuotes c := by
  have h1 : (stripQuotes c).dropWhile isQuote = stripQuotes c :=
    dropWhile_eq_self_of_head _ _ (stripQuotes_head c)
  show dropTrailing isQuote ((stripQuotes c).dropWhile isQuote) = stripQuotes c
  rw [h1, dropTrailing]
  have h2 : (stripQuotes c).reverse.dropWhile isQuote = (stripQuotes c).reverse :=
    dropWhile_eq_self_of_head _ _ (stripQuotes_reverse_head c)
  rw [h2, List.reverse_reverse]

/-! ### Counting helpers -/

theorem length_filterMap_lineCandidate (lines : List (List Char)) :
    (lines.filterMap lineCandidate).length =
      lines.countP (fun l => (lineCandidate l).isSome) := by
  induction lines with
  | nil => rfl
  | cons l ls ih =>
    rw [List.filterMap_cons, List.countP_cons]
    cases hc : lineCandidate l <;> simp [hc, ih]

theorem countP_partition {α : Type} (p : α → Bool) (l : List α) :
    l.countP p + l.countP (fun a => !(p a)) = l.length := by
  induction l with
  | nil => rfl
  | cons a l ih =>
    rw [List.countP_cons, List.countP_cons, List.length_cons]
    cases hp : p a <;> simp [hp] <;> omega

/-! ### Derived facts about the extraction entry point -/

theorem read_emails_out (lines : List (List Char)) :
    (read_emails_from_csv initState lines).2 =
      dedupGo [] (validCandidates lines) := by
  rw [read_emails_from_csv, foldl_stepLine_eq lines initState []]
  exact rfl

theorem read_emails_stats (lines : List (List Char)) :
    (read_emails_from_csv initState lines).1.stats =
      { total := 0, sent := 0, failed := 0,
        invalid := invalidCount lines,
        duplicates := dupCount [] (validCandidates lines) } := by
  rw [read_emails_from_csv, foldl_stepLine_eq lines initState []]
  simp [initState, initStats]

/-! ### Claims -/

/-- C1: for every input file, `read_emails_from_csv` on a fresh
`EmailSender` returns the ordered sequence of unique valid addresses in
first-seen order: the output equals the first-seen deduplication
(`dedupFirstSeen`, the spec's wording) of the valid candidates in input
order, contains no duplicate strings (exact, case-sensitive comparison),
and every element passes `is_valid_email`. -/
theorem claim1_read_emails_unique_valid_first_seen (lines : List (List Char)) :
    (read_emails_from_csv initState lines).2 = dedupFirstSeen (validCandidates lines) ∧
    (read_emails_from_csv initState lines).2.Nodup ∧
    ∀ e ∈ (read_emails_from_csv initState lines).2, is_valid_email e = true := by
  have h := read_emails_out lines
  refine ⟨h, ?_, ?_⟩
  · rw [h]
    exact dedupGo_nodup _ _
  · intro e he
    rw [h] at he
    have hmem := dedupGo_sub _ _ e he
    rw [validCandidates] at hmem
    exact (List.mem_filter.mp hmem).2

/-- C1 witness. -/
theorem claim1_witness : is_valid_email ("a@b.co".data) = true :=
  (claim1_read_emails_unique_valid_first_seen ["a@b.co".data]).2.2
    ("a@b.co".data) (by decide)

/-- C2: each non-empty non-header line is assigned exactly one of the
classifications (the loop body either increments `invalid`, increments
`duplicates`, or appends the candidate to the output - three mutually
exclusive state changes), and at the end of extraction
`invalid + duplicates + |valid output| = number of non-empty non-header
lines`. -/
theorem claim2_classification_partition (lines : List (List Char)) :
    ((read_emails_from_csv initState lines).1.stats.invalid +
        (read_emails_from_csv initState lines).1.stats.duplicates +
        (read_emails_from_csv initState lines).2.length =
      lines.countP (fun l => (lineCandidate l).isSome)) ∧
    (∀ (st : SenderState) (emails : List (List Char)) (l c : List Char),
      lineCandidate l = some c →
        stepLine (st, emails) l =
            ({ st with stats := { st.stats with invalid := st.stats.invalid + 1 } },
             emails) ∨
        stepLine (st, emails) l =
            ({ st with stats := { st.stats with duplicates := st.stats.duplicates + 1 } },
             emails) ∨
        stepLine (st, emails) l =
            ({ st with processed_emails := c :: st.processed_emails }, emails ++ [c])) := by
  constructor
  · rw [read_emails_out lines, read_emails_stats lines]
    have h1 := dupCount_add_dedupGo_length (validCandidates lines) []
    have h2 := countP_partition (fun c => is_valid_email c) (lines.filterMap lineCandidate)
    have h3 := length_filterMap_lineCandidate lines
    have h4 : (validCandidates lines).length =
        (lines.filterMap lineCandidate).countP (fun c => is_valid_email c) :=
      Eq.symm (List.countP_eq_length_filter _ _)
    have h5 : invalidCount lines =
        (lines.filterMap lineCandidate).countP (fun c => !(is_valid_email c)) :=
      Eq.symm (List.countP_eq_length_filter _ _)
    show invalidCount lines + dupCount [] (validCandidates lines) +
        (dedupGo [] (validCandidates lines)).length = _
    omega
  · intro st emails l c hc
    rw [stepLine_eq_stepCand, hc, stepCand]
    by_cases hv : is_valid_email c = true
    · by_cases hd : c ∈ st.processed_emails
      · refine Or.inr (Or.inl ?_)
        rw [if_neg (by simp [hv]), if_pos hd]
      · refine Or.inr (Or.inr ?_)
        rw [if_neg (by simp [hv]), if_neg hd]
    · exact Or.inl (by rw [if_pos hv])

/-- C2 witness. -/
theorem claim2_witness :
    ((read_emails_from_csv initState ["a@b.co".data, "xx".data]).1.stats.invalid +
        (read_emails_from_csv initState ["a@b.co".data, "xx".data]).1.stats.duplicates +
        (read_emails_from_csv initState ["a@b.co".data, "xx".data]).2.length =
      ["a@b.co".data, "xx".data].countP (fun l => (lineCandidate l).isSome)) ∧
    (stepLine (initState, []) ("a@b.co".data) =
        ({ initState with stats :=
            { initState.stats with invalid := initState.stats.invalid + 1 } }, []) ∨
     stepLine (initState, []) ("a@b.co".data) =
        ({ initState with stats :=
            { initState.stats with duplicates := initState.stats.duplicates + 1 } }, []) ∨
     stepLine (initState, []) ("a@b.co".data) =
        ({ initState with processed_emails := "a@b.co".data :: initState.processed_emails },
         [] ++ ["a@b.co".data])) :=
  ⟨(claim2_classification_partition _).1,
   (claim2_classification_partition ["a@b.co".data, "xx".data]).2 initState []
     ("a@b.co".data) ("a@b.co".data) (by decide)⟩

theorem countSent_partition (transport : List Char → SmtpEvent) (es : List (List Char)) :
    es.countP (fun e => eventSent (transport e)) +
      es.countP (fun e => !(eventSent (transport e))) = es.length :=
  countP_partition _ _

/-- C3: at completion of `send_emails_from_csv` on a fresh `EmailSender`
(each dispatched recipient increments exactly one of `sent`/`failed`),
`total = sent + failed`, and `total` equals the length of the
deduplicated valid-address sequence produced by extraction (invalid and
duplicate recipients are excluded from `total` before dispatch). -/
theorem claim3_total_eq_sent_add_failed (transport : List Char → SmtpEvent)
    (delaySeconds : Nat) (lines : List (List Char)) :
    ((send_emails_from_csv transport delaySeconds initState lines).1.stats.total =
        (send_emails_from_csv transport delaySeconds initState lines).1.stats.sent +
          (send_emails_from_csv transport delaySeconds initState lines).1.stats.failed) ∧
    (send_emails_from_csv transport delaySeconds initState lines).1.stats.total =
      (read_emails_from_csv initState lines).2.length := by
  by_cases he : (read_emails_from_csv initState lines).2 = []
  · simp only [send_emails_from_csv, if_pos he, read_emails_stats lines, he]
    simp
  · simp only [send_emails_from_csv, if_neg he, dispatchLoop_eq, read_emails_stats lines]
    have := countSent_partition transport (read_emails_from_csv initState lines).2
    refine ⟨?_, by trivial⟩
    show (read_emails_from_csv initState lines).2.length = 0 + _ + (0 + _)
    omega

/-- C9: the run performs exactly N-1 delay suspensions of `delay_seconds`
each for N valid recipients (none for N ≤ 1), regardless of per-recipient
outcomes. -/
theorem claim9_delays (transport : List Char → SmtpEvent) (delaySeconds : Nat)
    (lines : List (List Char)) :
    (send_emails_from_csv transport delaySeconds initState lines).2.2 =
      List.replicate ((read_emails_from_csv initState lines).2.length - 1) delaySeconds := by
  by_cases he : (read_emails_from_csv initState lines).2 = []
  · simp only [send_emails_from_csv, if_pos he, he]
    simp
  · simp only [send_emails_from_csv, if_neg he, dispatchLoop_eq]

/-- C8: within one run (one `EmailSender` instance), re-reading the same
source yields an empty valid sequence - every second-pass valid candidate
is already in `processed_emails` and is classified Duplicate (the
duplicate counter grows by the full number of valid candidates) - and the
deduplication set persists and grows monotonically across the two calls. -/
theorem claim8_second_pass_duplicates (st0 : SenderState) (lines : List (List Char)) :
    ((read_emails_from_csv (read_emails_from_csv st0 lines).1 lines).2 = []) ∧
    ((read_emails_from_csv (read_emails_from_csv st0 lines).1 lines).1.stats.duplicates =
      (read_emails_from_csv st0 lines).1.stats.duplicates + (validCandidates lines).length) ∧
    (∀ x ∈ st0.processed_emails, x ∈ (read_emails_from_csv st0 lines).1.processed_emails) ∧
    (∀ x ∈ (read_emails_from_csv st0 lines).1.processed_emails,
      x ∈ (read_emails_from_csv (read_emails_from_csv st0 lines).1 lines).1.processed_emails) := by
  have hall : ∀ c ∈ validCandidates lines,
      c ∈ (dedupGo st0.processed_emails (validCandidates lines)).reverse ++
        st0.processed_emails := by
    intro c hc
    rcases mem_seen_or_dedupGo (validCandidates lines) st0.processed_emails c hc with h | h
    · exact List.mem_append_right _ h
    · exact List.mem_append_left _ (List.mem_reverse.mpr h)
  simp only [read_emails_from_csv, foldl_stepLine_eq lines]
  rw [dedupGo_eq_nil _ _ hall, dupCount_eq_length _ _ hall]
  refine ⟨rfl, by simp, ?_, ?_⟩
  · intro x hx
    exact List.mem_append_right _ hx
  · intro x hx
    simpa using hx

/-- C8 witness. -/
theorem claim8_witness :
    ("a@b.co".data) ∈
      (read_emails_from_csv (read_emails_from_csv initState ["a@b.co".data]).1
        ["a@b.co".data]).1.processed_emails :=
  (claim8_second_pass_duplicates initState ["a@b.co".data]).2.2.2
    ("a@b.co".data) (by decide)

/-- C10: validation is applied to the whitespace-stripped candidate, but
the unstripped candidate is what is stored, deduplicated and returned:
any non-skipped line whose (quote-stripped) candidate has a
pattern-shaped whitespace-stripped form is classified Valid, and the
candidate is appended verbatim (whitespace intact) whenever that exact
string - not its stripped form - is absent from the deduplication set. -/
theorem claim10_whitespace_candidate (st : SenderState) (emails : List (List Char))
    (l c : List Char) (hc : lineCandidate l = some c)
    (hform : specEmailForm (pyStrip c)) (hnew : c ∉ st.processed_emails) :
    is_valid_email c = true ∧
    stepLine (st, emails) l =
      ({ st with processed_emails := c :: st.processed_emails }, emails ++ [c]) := by
  have hv : is_valid_email c = true := (is_valid_email_iff c).2 hform
  refine ⟨hv, ?_⟩
  rw [stepLine_eq_stepCand, hc, stepCand]
  rw [if_neg (by simp [hv]), if_neg hnew]

/-- C10 witness: the line `" a@b.com"` (quoted, leading space inside the
quotes) is accepted and stored WITH the space, even though the bare
`a@b.com` is already in the deduplication set. -/
theorem claim10_witness :
    is_valid_email (" a@b.com".data) = true ∧
    stepLine (⟨["a@b.com".data], initStats⟩, []) ("\" a@b.com\"".data) =
      (⟨" a@b.com".data :: ["a@b.com".data], initStats⟩, [] ++ [" a@b.com".data]) :=
  claim10_whitespace_candidate ⟨["a@b.com".data], initStats⟩ [] ("\" a@b.com\"".data)
    (" a@b.com".data) (by decide) ((is_valid_email_iff _).1 (by decide)) (by decide)

/-- C4 counterexample: the candidate `" a@b.com"` (leading space) is
classified Valid by `is_valid_email`, yet the candidate itself does not
match the anchored pattern - the validator matches the whitespace-stripped
candidate, so "Valid iff the candidate matches the pattern" fails. -/
theorem claim4_counterexample :
    is_valid_email (" a@b.com".data) = true ∧
    emailRegex.rmatch (" a@b.com".data) = false := by
  constructor
  · decide
  · decide

/-- C4 (amended): the validator classifies a candidate Valid iff the
WHITESPACE-STRIPPED candidate matches the anchored pattern (stated
against `specEmailForm`, the spec's wording of the pattern). -/
theorem claim4_validator_matches_stripped (s : List Char) :
    is_valid_email s = true ↔ specEmailForm (pyStrip s) :=
  is_valid_email_iff s

/-- C4 witness. -/
theorem claim4_witness : specEmailForm (pyStrip ("a@b.co".data)) :=
  (claim4_validator_matches_stripped ("a@b.co".data)).1 (by decide)

/-- C5 (code behaviour at the failing input): when connection
establishment fails - the `smtplib.SMTP` constructor raises, e.g.
`ConnectionRefusedError` with text "[Errno 111] Connection refused" -
the exception is caught by the OUTER generic handler (line 210), so the
recipient is logged FAILED with the raw exception text as reason, not
with reason "Connection Error"; `failed` is still incremented.  The
`except SMTPConnectError` handler at line 201 sits on the inner block
(login/sendmail), which `smtplib` never exits via `SMTPConnectError`. -/
theorem claim5_connection_failure_reason :
    ((dispatchLoop (fun _ => SmtpEvent.outerRaise "[Errno 111] Connection refused") 0
        initStats ["a@b.co".data]).2.1.map StatusEntry.errorMsg =
      ["[Errno 111] Connection refused"]) ∧
    ((dispatchLoop (fun _ => SmtpEvent.outerRaise "[Errno 111] Connection refused") 0
        initStats ["a@b.co".data]).2.1.map StatusEntry.status = ["FAILED"]) ∧
    (dispatchLoop (fun _ => SmtpEvent.outerRaise "[Errno 111] Connection refused") 0
        initStats ["a@b.co".data]).1.failed = 1 := by
  refine ⟨rfl, rfl, rfl⟩

/-- C6 counterexample: a candidate wrapped in TWO pairs of double quotes
loses both layers (Python `strip('"\'')` removes every leading/trailing
quote character), so the extracted candidate is the bare address, not an
address still wrapped in one pair of quotes as the claim states. -/
theorem claim6_counterexample :
    lineCandidate ("\"\"a@b.com\"\"".data) = some ("a@b.com".data) ∧
    ((lineCandidate ("\"\"a@b.com\"\"".data) ==
        some ("\"a@b.com\"".data)) = false) := by
  refine ⟨by decide, by decide⟩

/-- C6 (amended): quote stripping removes ALL leading and trailing quote
characters, not exactly one layer: it is idempotent, and every candidate
decomposes as a (possibly empty) run of quotes, the stripped core, and a
run of quotes. -/
theorem claim6_strip_all_quote_layers (c : List Char) :
    stripQuotes (stripQuotes c) = stripQuotes c ∧
    ∃ pre suf, pre ++ stripQuotes c ++ suf = c ∧
      (∀ x ∈ pre, isQuote x = true) ∧ (∀ x ∈ suf, isQuote x = true) :=
  ⟨stripQuotes_idem c, stripQuotes_decomp c⟩

/-- C6 witness. -/
theorem claim6_witness :
    stripQuotes (stripQuotes ("\"\"a@b.com\"\"".data)) =
      stripQuotes ("\"\"a@b.com\"\"".data) :=
  (claim6_strip_all_quote_layers ("\"\"a@b.com\"\"".data)).1

/-- C7 counterexample: with a config file that exists and parses to an
object missing `smtp_port` (and six more required keys), `load_config`
does not fail: it returns the partial object unchanged. -/
theorem claim7_counterexample :
    load_config (some (Except.ok [("smtp_host", JsonVal.str "smtp.example.com")]))
        (fun _ => none) =
      Except.ok [("smtp_host", JsonVal.str "smtp.example.com")] ∧
    hasKey [("smtp_host", JsonVal.str "smtp.example.com")] "smtp_port" = false := by
  refine ⟨rfl, rfl⟩

/-- C7 (amended): when the config file exists and parses as JSON but is
missing required keys, configuration loading does NOT fail fast: the
parsed partial object is returned as-is (missing keys surface only later,
at use sites). -/
theorem claim7_partial_config_returned (j : JsonObj) (env : String → Option String)
    (_h : ¬ ∀ k ∈ requiredConfigKeys, hasKey j k = true) :
    load_config (some (Except.ok j)) env = Except.ok j :=
  rfl

/-- C7 witness. -/
theorem claim7_witness :
    load_config (some (Except.ok [("smtp_host", JsonVal.str "smtp.example.com")]))
        (fun _ => none) =
      Except.ok [("smtp_host", JsonVal.str "smtp.example.com")] :=
  claim7_partial_config_returned [("smtp_host", JsonVal.str "smtp.example.com")]
    (fun _ => none) (by decide)

end EmailSender
